import Mathlib

/-!
Shallow embedding of the bsky-streamer firehose consumer
(src/bsky-streamer/src/main.rs) together with theorems settling the
specification claims about it.

The embedding follows the source:
- `is_post_creation`, `extract_post_record`, `handle_commit` and
  `update_cursor` embed the methods of `FirehoseConsumer`;
- `next` and `runLoop` embed `RepoSubscription::next` and
  `RepoSubscription::run`;
- external effects (websocket transport, CBOR decoding, the sink) are
  represented by their results: a transport item either carries the
  result of `Frame::try_from` or is a non-binary/error/end item, a frame
  body carries the result of deserializing it into a `Commit`, and a
  block payload carries the result of decoding it into a `Record`.
  The sink (`exporter.export`) is modelled as collecting the emitted
  events in order, matching the Rust code in which export is awaited
  inline and its events observed in call order.
-/

namespace BskyStreamer

/-- Content identifier: version, codec tag and multihash bytes.
Modelled from the spec: the `CidOld` conversion lives in
`types.rs`, which is not part of the provided sources; per the spec it
re-encodes an identifier between library representations, and a CID is
a version tag, a codec tag and a content hash. -/
structure Cid where
  version : Nat
  codec : Nat
  hash : List Nat
deriving DecidableEq

/-- Decoded application payload (`app.bsky.feed.post::Record`),
abstracted to its textual content. -/
structure Record where
  text : String
deriving DecidableEq

deriving instance DecidableEq for Except

/-- A block payload carries the result of decoding its bytes into a
`Record` via `serde_ipld_dagcbor::from_reader`. -/
def Payload : Type := Except Unit Record

instance : DecidableEq Payload := by
  unfold Payload
  infer_instance

/-- A repository operation (`RepoOp`): action, path and optional target
content identifier. -/
structure RepoOp where
  action : String
  path : String
  cid : Option Cid
deriving DecidableEq

/-- A commit frame body (`Commit`): sequence number (`i64` in the
source, hence `Int`), repository id, commit hash, operations, and the
result of parsing the embedded CAR block archive via
`rs_car::car_read_all` into (identifier, payload) entries. -/
structure Commit where
  seq : Int
  repo : String
  commit : Cid
  ops : List RepoOp
  blocks : Except Unit (List (Cid × Payload))
deriving DecidableEq

/-- The unit handed to the sink (`PostData::new(repo, commit, record)`). -/
structure PostData where
  repo : String
  commit : Cid
  record : Record
deriving DecidableEq

/-- Modelled from the spec: `CidOld::from(cid).try_into()` (types.rs,
not in the provided sources) re-encodes an identifier from the archive
library's representation into the API library's representation; it
carries over the version, codec and hash unchanged. -/
def convertCid (c : Cid) : Cid :=
  ⟨c.version, c.codec, c.hash⟩

/-- Two identifiers are encodings of the same content hash (the spec's
notion of logically-equivalent identifiers). -/
def sameContentHash (a b : Cid) : Bool :=
  a.hash == b.hash

/-- `app.bsky.feed.post` collection NSID (`BPost::NSID`). -/
def bskyPostNSID : String := "app.bsky.feed.post"

/-- First path segment, as in Rust `path.split('/').next()` (the
segment before the first `/`, the whole string when there is none). -/
def firstPathSegment (p : String) : List Char :=
  p.toList.takeWhile (fun c => c != '/')

/-- `FirehoseConsumer::is_post_creation`: the action is `create` and
the first path segment is the post collection NSID. -/
def is_post_creation (op : RepoOp) : Bool :=
  op.action == "create" && firstPathSegment op.path == bskyPostNSID.toList

/-- Errors of `extract_post_record` (`color_eyre` reports in the
source, distinguished here by their origin). -/
inductive ExtractError where
  | parseError
  | notFound (nEntries : Nat)
  | decodeError
deriving DecidableEq

/-- The block-resolution step of `FirehoseConsumer::extract_post_record`
(main.rs lines 144-160): linear scan of the parsed archive entries for
one whose converted identifier equals the operation's `cid`; when none
matches, the error carries the number of entries. -/
def resolveBlock (op : RepoOp) (items : List (Cid × Payload)) :
    Except ExtractError Payload :=
  match items.find? (fun e => some (convertCid e.1) == op.cid) with
  | some e => Except.ok e.2
  | none => Except.error (ExtractError.notFound items.length)

/-- `FirehoseConsumer::extract_post_record`: parse the CAR archive,
resolve the operation's cid against its entries, decode the matched
payload into a `Record`. -/
def extract_post_record (op : RepoOp)
    (blocks : Except Unit (List (Cid × Payload))) :
    Except ExtractError Record :=
  match blocks with
  | Except.error _ => Except.error ExtractError.parseError
  | Except.ok items =>
    match resolveBlock op items with
    | Except.error e => Except.error e
    | Except.ok p =>
      match p with
      | Except.ok r => Except.ok r
      | Except.error _ => Except.error ExtractError.decodeError

/-- Result of handling one commit: the outcome of
`FirehoseConsumer::handle_commit`, the events exported to the sink (in
export order), and how many operations the loop iterated over before
returning. -/
structure CommitResult where
  outcome : Except ExtractError Unit
  events : List PostData
  attempted : Nat
deriving DecidableEq

/-- The operation loop of `FirehoseConsumer::handle_commit`: skip
operations failing the create/post filter; extract the post record,
returning the error (`?`) as soon as one extraction fails; export each
extracted record. -/
def processOps (c : Commit) : List RepoOp → CommitResult
  | [] => ⟨Except.ok (), [], 0⟩
  | op :: rest =>
    if is_post_creation op then
      match extract_post_record op c.blocks with
      | Except.error e => ⟨Except.error e, [], 1⟩
      | Except.ok record =>
        let r := processOps c rest
        ⟨r.outcome, ⟨c.repo, c.commit, record⟩ :: r.events, r.attempted + 1⟩
    else
      let r := processOps c rest
      ⟨r.outcome, r.events, r.attempted + 1⟩

/-- `FirehoseConsumer::handle_commit` iterates the commit's operations. -/
def handle_commit (c : Commit) : CommitResult :=
  processOps c c.ops

/-- State of a `FirehoseConsumer` (the rate counter; the exporter is
modelled by the collected event list). -/
structure FirehoseConsumerState where
  rateCount : Nat
deriving DecidableEq

/-- `FirehoseConsumer::update_cursor`: traces and returns `Ok(())`;
it takes `&self`, so the state is unchanged. -/
def update_cursor (s : FirehoseConsumerState) (seq : Nat) :
    Except Unit Unit × FirehoseConsumerState :=
  (Except.ok (), s)

/-- A decoded transport frame (`types::Frame`): a message with an
optional type tag whose body carries the result of deserializing it as
a `Commit` (`serde_ipld_dagcbor::from_reader` in `run`), or an error
frame. -/
inductive Frame where
  | message (t : Option String) (body : Except Unit Commit)
  | error
deriving DecidableEq

/-- One item yielded by the websocket transport: a binary message
carrying the result of `Frame::try_from` on its bytes, a non-binary
message (ping, text, close), or a websocket-level error. -/
inductive WsMessage where
  | binary (frame : Except Unit Frame)
  | nonbinary
  | wserror
deriving DecidableEq

/-- `RepoSubscription::next`: take the next transport item; yield the
frame-decode result for a binary message and `none` for a non-binary
message, a websocket error, or the end of the stream. -/
def next : List WsMessage → Option (Except Unit Frame) × List WsMessage
  | [] => (none, [])
  | WsMessage.binary r :: rest => (some r, rest)
  | WsMessage.nonbinary :: rest => (none, rest)
  | WsMessage.wserror :: rest => (none, rest)

/-- The `commit.seq as u64` cast: an `i64` reinterpreted as a `u64`. -/
def toU64 (i : Int) : Nat :=
  (i % (2 ^ 64)).toNat

/-- Observable outcome of `RepoSubscription::run`: whether it returned
`Ok(())`, the events exported to the sink in order, the arguments of
the `update_cursor` calls in order, and the final value of
`commit_count`. -/
structure RunResult where
  ok : Bool
  events : List PostData
  persists : List Nat
  finalCount : Nat
deriving DecidableEq

/-- `RepoSubscription::run`: receive loop over the transport. A `None`
from `next` ends the loop with `Ok(())`; a frame-decode error or a
frame that is not a tagged message is skipped; on a `#commit` frame the
body is deserialized (an error here propagates via `?` and ends the
run), `handle_commit` is invoked with its error only logged, the commit
counter is incremented, and at 20 the cursor is updated with the
commit's sequence number and the counter reset. -/
def runLoop : List WsMessage → Nat → RunResult
  | [], k => ⟨true, [], [], k⟩
  | WsMessage.nonbinary :: _, k => ⟨true, [], [], k⟩
  | WsMessage.wserror :: _, k => ⟨true, [], [], k⟩
  | WsMessage.binary (Except.error _) :: rest, k => runLoop rest k
  | WsMessage.binary (Except.ok Frame.error) :: rest, k => runLoop rest k
  | WsMessage.binary (Except.ok (Frame.message none _)) :: rest, k =>
    runLoop rest k
  | WsMessage.binary (Except.ok (Frame.message (some t) body)) :: rest, k =>
    if t = "#commit" then
      match body with
      | Except.error _ => ⟨false, [], [], k⟩
      | Except.ok c =>
        let r := handle_commit c
        let tail := runLoop rest (if k + 1 ≥ 20 then 0 else k + 1)
        ⟨tail.ok, r.events ++ tail.events,
          (if k + 1 ≥ 20 then [toU64 c.seq] else []) ++ tail.persists,
          tail.finalCount⟩
    else runLoop rest k

/-- A well-formed `#commit` frame carrying commit `c`. -/
def mkCommitMsg (c : Commit) : WsMessage :=
  WsMessage.binary (Except.ok (Frame.message (some "#commit") (Except.ok c)))

/-- One step of the `commit_count` state: incremented per commit,
reset to zero when it reaches 20. -/
def stepCount (k : Nat) : Nat :=
  if k + 1 ≥ 20 then 0 else k + 1

/-- The `commit_count` state after a list of commits. -/
def countAfter : List Commit → Nat → Nat
  | [], k => k
  | _ :: cs, k => countAfter cs (stepCount k)

/-- Events a single commit contributes to the sink. -/
def commitEvents (c : Commit) : List PostData :=
  (handle_commit c).events

/-- Cursor updates contributed by a list of commits starting from
counter value `k`: the sequence number of every commit at which the
counter reaches 20. -/
def commitPersists : List Commit → Nat → List Nat
  | [], _ => []
  | c :: cs, k =>
    (if k + 1 ≥ 20 then [toU64 c.seq] else []) ++ commitPersists cs (stepCount k)

/-- The event the operation would contribute: `some` exactly when the
operation passes the create/post filter and its record extracts. -/
def potentialEvent (c : Commit) (op : RepoOp) : Option PostData :=
  if is_post_creation op then
    (extract_post_record op c.blocks).toOption.map
      (fun r => ⟨c.repo, c.commit, r⟩)
  else none

/-- Whether extraction fails for an operation that passes the filter. -/
def isErrB : Except ExtractError Record → Bool
  | Except.error _ => true
  | Except.ok _ => false

/-- An operation makes `handle_commit` fail iff it passes the
create/post filter and its extraction fails. -/
def opFails (c : Commit) (op : RepoOp) : Bool :=
  is_post_creation op && isErrB (extract_post_record op c.blocks)

theorem runLoop_commits (cs : List Commit) (rest : List WsMessage) (k : Nat) :
    runLoop (cs.map mkCommitMsg ++ rest) k =
      ⟨(runLoop rest (countAfter cs k)).ok,
       (cs.map commitEvents).flatten ++ (runLoop rest (countAfter cs k)).events,
       commitPersists cs k ++ (runLoop rest (countAfter cs k)).persists,
       (runLoop rest (countAfter cs k)).finalCount⟩ := by
  induction cs generalizing k with
  | nil => simp [countAfter, commitPersists]
  | cons c cs ih =>
    by_cases h : k + 1 ≥ 20 <;>
      simp [mkCommitMsg, runLoop, countAfter, commitPersists, stepCount,
        commitEvents, h, ih]

theorem processOps_events (c : Commit) (ops : List RepoOp) :
    (processOps c ops).events =
      (ops.takeWhile (fun op => !opFails c op)).filterMap (potentialEvent c) := by
  induction ops with
  | nil => simp [processOps]
  | cons op rest ih =>
    by_cases hp : is_post_creation op
    · cases hx : extract_post_record op c.blocks with
      | error e =>
        have hf : opFails c op = true := by
          simp [opFails, hp, isErrB, hx]
        simp [processOps, hp, hx, hf]
      | ok record =>
        have hf : opFails c op = false := by
          simp [opFails, isErrB, hx]
        simp [processOps, hp, hx, hf, ih, potentialEvent, Except.toOption]
    · have hf : opFails c op = false := by
        simp [opFails, hp]
      simp [processOps, hp, hf, ih, potentialEvent]

theorem processOps_outcome (c : Commit) (ops : List RepoOp) :
    ((processOps c ops).outcome = Except.ok () ↔
      ops.all (fun op => !opFails c op) = true) := by
  induction ops with
  | nil => simp [processOps]
  | cons op rest ih =>
    by_cases hp : is_post_creation op
    · cases hx : extract_post_record op c.blocks with
      | error e =>
        have hf : opFails c op = true := by
          simp [opFails, hp, isErrB, hx]
        simp [processOps, hp, hx, hf]
      | ok record =>
        have hf : opFails c op = false := by
          simp [opFails, isErrB, hx]
        simp [processOps, hp, hx, hf, ih]
    · have hf : opFails c op = false := by
        simp [opFails, hp]
      simp [processOps, hp, hf, ih]

theorem processOps_attempted (c : Commit) (ops : List RepoOp) :
    (processOps c ops).attempted =
      min ((ops.takeWhile (fun op => !opFails c op)).length + 1) ops.length := by
  induction ops with
  | nil => simp [processOps]
  | cons op rest ih =>
    by_cases hp : is_post_creation op
    · cases hx : extract_post_record op c.blocks with
      | error e =>
        have hf : opFails c op = true := by
          simp [opFails, hp, isErrB, hx]
        simp [processOps, hp, hx, hf]
      | ok record =>
        have hf : opFails c op = false := by
          simp [opFails, isErrB, hx]
        simp [processOps, hp, hx, hf, ih, Nat.succ_min_succ]
    · have hf : opFails c op = false := by
        simp [opFails, hp]
      simp [processOps, hp, hf, ih, Nat.succ_min_succ]

theorem commitEvents_sublist (c : Commit) :
    (commitEvents c).Sublist (c.ops.filterMap (potentialEvent c)) := by
  show (processOps c c.ops).events.Sublist (c.ops.filterMap (potentialEvent c))
  induction c.ops with
  | nil => simp [processOps]
  | cons op rest ih =>
    by_cases hp : is_post_creation op
    · cases hx : extract_post_record op c.blocks with
      | error e =>
        simp [processOps, hp, hx]
      | ok record =>
        have hpe : potentialEvent c op = some ⟨c.repo, c.commit, record⟩ := by
          simp [potentialEvent, hp, hx, Except.toOption]
        simp only [processOps, hp, if_pos, hx, List.filterMap_cons, hpe]
        exact List.Sublist.cons₂ _ ih
    · simp [processOps, hp, potentialEvent, ih]

theorem commitPersists_sublist (cs : List Commit) (k : Nat) :
    (commitPersists cs k).Sublist (cs.map (fun c => toU64 c.seq)) := by
  induction cs generalizing k with
  | nil => simp [commitPersists]
  | cons c cs ih =>
    by_cases h : k + 1 ≥ 20
    · simp only [commitPersists, h, if_pos, List.map_cons, List.singleton_append]
      exact List.Sublist.cons₂ _ (ih (stepCount k))
    · simp only [commitPersists, h, if_neg, not_false_iff, List.nil_append,
        List.map_cons]
      exact List.Sublist.cons _ (ih (stepCount k))

theorem chain'_of_mem_imp {α : Type} {R S : α → α → Prop} :
    ∀ l : List α, (∀ a ∈ l, ∀ b ∈ l, R a b → S a b) →
      l.Chain' R → l.Chain' S
  | [], _, _ => List.chain'_nil
  | [_], _, _ => List.chain'_singleton _
  | a :: b :: t, h, hc => by
    rw [List.chain'_cons] at hc ⊢
    refine ⟨h a (by simp) b (by simp) hc.1, ?_⟩
    exact chain'_of_mem_imp (b :: t)
      (fun x hx y hy => h x (List.mem_cons_of_mem a hx)
        y (List.mem_cons_of_mem a hy)) hc.2

theorem toU64_of_range {i : Int} (h0 : 0 ≤ i) (h1 : i < 2 ^ 64) :
    toU64 i = i.toNat := by
  unfold toU64
  rw [Int.emod_eq_of_lt h0 h1]

theorem toU64_mono {a b : Int} (ha0 : 0 ≤ a) (ha1 : a < 2 ^ 64)
    (hb0 : 0 ≤ b) (hb1 : b < 2 ^ 64) (hab : a ≤ b) :
    toU64 a ≤ toU64 b := by
  rw [toU64_of_range ha0 ha1, toU64_of_range hb0 hb1]
  exact Int.toNat_le_toNat hab

/-- A dag-cbor identifier used in the concrete test fixtures. -/
def cidA : Cid := ⟨1, 113, [9]⟩

/-- A second identifier, matching no archive entry in the fixtures. -/
def cidB : Cid := ⟨1, 113, [8]⟩

/-- The commit hash used in the fixtures. -/
def cidC : Cid := ⟨1, 113, [3]⟩

/-- The decoded record used in the fixtures. -/
def rec0 : Record := ⟨"hello"⟩

/-- A create/post operation whose cid resolves in the fixture archive. -/
def opGood : RepoOp := ⟨"create", "app.bsky.feed.post/a", some cidA⟩

/-- A create/post operation whose cid matches no fixture archive entry. -/
def opBad : RepoOp := ⟨"create", "app.bsky.feed.post/b", some cidB⟩

/-- A commit whose first operation fails to resolve and whose second
operation would succeed. -/
def cMixed : Commit :=
  ⟨1, "r", cidC, [opBad, opGood], Except.ok [(cidA, Except.ok rec0)]⟩

/-- A commit with a single successfully-resolving operation. -/
def cGood : Commit :=
  ⟨1, "r", cidC, [opGood], Except.ok [(cidA, Except.ok rec0)]⟩

/-- A commit whose single operation fails to resolve (empty archive). -/
def cFailing : Commit :=
  ⟨1, "r", cidC, [opBad], Except.ok []⟩

/-- A `#commit` frame whose body fails to deserialize into a `Commit`. -/
def badBodyMsg : WsMessage :=
  WsMessage.binary (Except.ok (Frame.message (some "#commit") (Except.error ())))

/-- C1: the claim states that a commit with K filtered operations of
which M fail yields exactly K−M events and that a failing operation
never prevents later operations of the same commit from being
attempted. On `cMixed` (a failing operation followed by a succeeding
one, K = 2, M = 1) the code emits 0 events, not K−M = 1: the `?` on
`extract_post_record` aborts `handle_commit` at the first failure. -/
theorem c1_counterexample :
    (cMixed.ops.filter is_post_creation).length = 2
    ∧ (cMixed.ops.filter (fun op => opFails cMixed op)).length = 1
    ∧ (handle_commit cMixed).events.length = 0
    ∧ (handle_commit cMixed).events.length ≠
        (cMixed.ops.filter is_post_creation).length
          - (cMixed.ops.filter (fun op => opFails cMixed op)).length := by
  decide

/-- C1 (amended): processing a commit attempts operations in order and
stops at the first operation that passes the filter and fails to
resolve/decode; events are emitted exactly for the passing operations
that precede the first failure; `handle_commit` succeeds iff no
operation fails; the processed-commit counter advances by exactly 1
per commit frame regardless of operation failures. -/
theorem c1_amended (c : Commit) :
    (handle_commit c).events =
      (c.ops.takeWhile (fun op => !opFails c op)).filterMap (potentialEvent c)
    ∧ ((handle_commit c).outcome = Except.ok () ↔
        c.ops.all (fun op => !opFails c op) = true)
    ∧ ∀ k, (runLoop [mkCommitMsg c] k).finalCount = stepCount k := by
  refine ⟨processOps_events c c.ops, processOps_outcome c c.ops, ?_⟩
  intro k
  have h := runLoop_commits [c] [] k
  simp only [List.map_cons, List.map_nil, List.append_nil] at h
  rw [h]
  simp [runLoop, countAfter]

/-- C2: over a stream of 45 commit frames whose sequence numbers lie in
the `u64`-representable range, `update_cursor` is invoked exactly
twice, with the sequence numbers of the 20th and the 40th commit, in
that order, and the commit counter is zero again right after each of
those two commits. -/
theorem c2_checkpoints (f : Nat → Commit)
    (hseq : ∀ i, i < 45 → 0 ≤ (f i).seq ∧ (f i).seq < 2 ^ 64) :
    (runLoop ((List.range 45).map (fun i => mkCommitMsg (f i))) 0).persists
        = [((f 19).seq).toNat, ((f 39).seq).toNat]
    ∧ (runLoop ((List.range 20).map (fun i => mkCommitMsg (f i))) 0).finalCount
        = 0
    ∧ (runLoop ((List.range 40).map (fun i => mkCommitMsg (f i))) 0).finalCount
        = 0 := by
  have hmap : ∀ n : Nat,
      (List.range n).map (fun i => mkCommitMsg (f i))
        = ((List.range n).map f).map mkCommitMsg := by
    intro n
    rw [List.map_map]
    rfl
  have hrun : ∀ n : Nat,
      runLoop ((List.range n).map (fun i => mkCommitMsg (f i))) 0
        = ⟨true, (((List.range n).map f).map commitEvents).flatten,
            commitPersists ((List.range n).map f) 0,
            countAfter ((List.range n).map f) 0⟩ := by
    intro n
    rw [hmap n]
    have h := runLoop_commits ((List.range n).map f) [] 0
    simp only [List.append_nil] at h
    rw [h]
    simp [runLoop]
  refine ⟨?_, ?_, ?_⟩
  · rw [hrun 45]
    have h19 := hseq 19 (by norm_num)
    have h39 := hseq 39 (by norm_num)
    have hr : List.range 45 =
        [0, 1, 2, 3, 4, 5, 6, 7, 8, 9, 10, 11, 12, 13, 14, 15, 16, 17, 18, 19,
         20, 21, 22, 23, 24, 25, 26, 27, 28, 29, 30, 31, 32, 33, 34, 35, 36,
         37, 38, 39, 40, 41, 42, 43, 44] := by rfl
    rw [hr]
    simp only [List.map_cons, List.map_nil, commitPersists, stepCount]
    norm_num [toU64_of_range h19.1 h19.2, toU64_of_range h39.1 h39.2]
  · rw [hrun 20]
    have hr : List.range 20 =
        [0, 1, 2, 3, 4, 5, 6, 7, 8, 9, 10, 11, 12, 13, 14, 15, 16, 17, 18,
         19] := by rfl
    rw [hr]
    simp only [List.map_cons, List.map_nil, countAfter, stepCount]
    norm_num
  · rw [hrun 40]
    have hr : List.range 40 =
        [0, 1, 2, 3, 4, 5, 6, 7, 8, 9, 10, 11, 12, 13, 14, 15, 16, 17, 18, 19,
         20, 21, 22, 23, 24, 25, 26, 27, 28, 29, 30, 31, 32, 33, 34, 35, 36,
         37, 38, 39] := by rfl
    rw [hr]
    simp only [List.map_cons, List.map_nil, countAfter, stepCount]
    norm_num

/-- The stream of 45 commits with sequence numbers 1..45 used to
witness the checkpoint cadence. -/
def seqCommit : Nat → Commit :=
  fun i => ⟨(i : Int) + 1, "r", cidC, [], Except.ok []⟩

/-- Witness for C2 at the concrete stream with sequence numbers 1..45:
the cursor updates are [20, 40] and the counter is zero after the 20th
and the 40th commit. -/
theorem c2_checkpoints_witness :
    (runLoop ((List.range 45).map (fun i => mkCommitMsg (seqCommit i))) 0).persists
        = [20, 40]
    ∧ (runLoop ((List.range 20).map (fun i => mkCommitMsg (seqCommit i))) 0).finalCount
        = 0
    ∧ (runLoop ((List.range 40).map (fun i => mkCommitMsg (seqCommit i))) 0).finalCount
        = 0 := by
  have h := c2_checkpoints seqCommit (by
    intro i hi
    dsimp only [seqCommit]
    constructor
    · omega
    · have : (i : Int) < 45 := by exact_mod_cast hi
      omega)
  refine ⟨?_, h.2.1, h.2.2⟩
  rw [h.1]
  rfl

/-- C3: the claim states that a frame failing `Frame::try_from` ends
the run. On the concrete stream [frame-decode failure, valid commit
frame] the run instead skips the bad frame (the `if let Ok(..)` match
in `run` has no else branch), processes the following commit, and
returns `Ok(())` with that commit's event exported, so the failure did
not propagate and did not end the run. -/
theorem c3_counterexample :
    (runLoop [WsMessage.binary (Except.error ())] 0).ok = true
    ∧ runLoop [WsMessage.binary (Except.error ()), mkCommitMsg cGood] 0
        = runLoop [mkCommitMsg cGood] 0
    ∧ (runLoop [mkCommitMsg cGood] 0).events = [⟨"r", cidC, rec0⟩] := by
  decide

/-- C3 (amended): a frame that fails to decode is silently skipped and
the receive loop continues unchanged; it is a `#commit` frame whose
body fails to deserialize into a `Commit` that ends the run with an
error; per-operation failures inside commit handling are caught,
logged, and the loop continues with the next frame. -/
theorem c3_amended :
    (∀ (rest : List WsMessage) (k : Nat),
      runLoop (WsMessage.binary (Except.error ()) :: rest) k = runLoop rest k)
    ∧ (∀ (rest : List WsMessage) (k : Nat),
        (runLoop (badBodyMsg :: rest) k).ok = false)
    ∧ (handle_commit cFailing).outcome = Except.error (ExtractError.notFound 0)
    ∧ (∀ (rest : List WsMessage) (k : Nat),
        (runLoop (mkCommitMsg cFailing :: rest) k).ok
          = (runLoop rest (stepCount k)).ok) := by
  refine ⟨fun rest k => rfl, fun rest k => by simp [badBodyMsg, runLoop],
    by decide, ?_⟩
  intro rest k
  by_cases h : k + 1 ≥ 20 <;> simp [mkCommitMsg, runLoop, stepCount, h]

/-- C8: after any prefix of valid commit frames, a non-binary
transport item (and likewise a websocket error or the end of the
stream) makes `next` yield `None`, which ends the receive loop with
`Ok(())`; whatever follows the non-binary item is never processed, and
no error is reported. -/
theorem c8_nonbinary_ends_ok (cs : List Commit) (post : List WsMessage)
    (k : Nat) :
    runLoop (cs.map mkCommitMsg ++ WsMessage.nonbinary :: post) k
      = ⟨true, (cs.map commitEvents).flatten, commitPersists cs k,
          countAfter cs k⟩
    ∧ runLoop (cs.map mkCommitMsg ++ WsMessage.wserror :: post) k
      = ⟨true, (cs.map commitEvents).flatten, commitPersists cs k,
          countAfter cs k⟩
    ∧ next (WsMessage.nonbinary :: post) = (none, post)
    ∧ next (WsMessage.wserror :: post) = (none, post)
    ∧ next ([] : List WsMessage) = (none, []) := by
  refine ⟨?_, ?_, rfl, rfl, rfl⟩
  · rw [runLoop_commits]
    simp [runLoop]
  · rw [runLoop_commits]
    simp [runLoop]

/-- C9: after any prefix of valid commit frames, a `#commit` frame
whose body fails to deserialize into a `Commit` ends the whole run
with an error (the `?` in `run`), no matter what follows; by contrast
a commit frame whose `handle_commit` fails (here `cFailing`, whose one
operation fails to resolve) only gets logged and the loop continues
with the next frame. -/
theorem c9_commit_decode_fatal (cs : List Commit) (post : List WsMessage)
    (k : Nat) :
    (runLoop (cs.map mkCommitMsg ++ badBodyMsg :: post) k).ok = false
    ∧ (handle_commit cFailing).outcome = Except.error (ExtractError.notFound 0)
    ∧ (∀ (rest : List WsMessage) (k2 : Nat),
        runLoop (mkCommitMsg cFailing :: rest) k2
          = ⟨(runLoop rest (stepCount k2)).ok,
              (runLoop rest (stepCount k2)).events,
              (if k2 + 1 ≥ 20 then [toU64 cFailing.seq] else [])
                ++ (runLoop rest (stepCount k2)).persists,
              (runLoop rest (stepCount k2)).finalCount⟩) := by
  refine ⟨?_, by decide, ?_⟩
  · rw [runLoop_commits]
    simp [badBodyMsg, runLoop]
  · intro rest k2
    have hev : (handle_commit cFailing).events = ([] : List PostData) := by
      decide
    by_cases h : k2 + 1 ≥ 20 <;>
      simp [mkCommitMsg, runLoop, stepCount, h, hev]

theorem convertCid_id (c : Cid) : convertCid c = c := rfl

theorem find?_entry :
    ∀ (items : List (Cid × Payload)),
      (items.map (fun e => e.1)).Nodup →
      ∀ (K : Nat) (hK : K < items.length),
        items.find?
            (fun e => some (convertCid e.1) == some ((items.get ⟨K, hK⟩).1))
          = some (items.get ⟨K, hK⟩)
  | [], _, K, hK => absurd hK (by simp)
  | e :: rest, hnd, 0, hK => by
    simp [List.find?, convertCid_id]
  | e :: rest, hnd, K + 1, hK => by
    have hK' : K < rest.length := by
      simpa using Nat.lt_of_succ_lt_succ hK
    have hnd' : (rest.map (fun x => x.1)).Nodup :=
      (List.nodup_cons.mp (by simpa using hnd)).2
    have hmem : rest.get ⟨K, hK'⟩ ∈ rest := List.get_mem rest K hK'
    have hne : e.1 ≠ (rest.get ⟨K, hK'⟩).1 := by
      have hnotin : e.1 ∉ rest.map (fun x => x.1) :=
        (List.nodup_cons.mp (by simpa using hnd)).1
      intro hcontra
      exact hnotin (hcontra ▸ List.mem_map_of_mem _ hmem)
    have hget : (e :: rest).get ⟨K + 1, hK⟩ = rest.get ⟨K, hK'⟩ := rfl
    rw [hget]
    rw [List.find?_cons_of_neg _
      (by simp only [convertCid_id, beq_iff_eq, Option.some.injEq]; exact hne)]
    exact find?_entry rest hnd' K hK'

/-- C4: for an archive whose entries carry pairwise-distinct
identifiers, resolving the K-th entry's identifier returns the K-th
payload for every K, and resolving an identifier matching no entry
returns the not-found error carrying the number of entries — a
returned error value, not an abort. -/
theorem c4_resolver (items : List (Cid × Payload))
    (hnd : (items.map (fun e => e.1)).Nodup) :
    (∀ (K : Nat) (hK : K < items.length) (act pth : String),
        resolveBlock ⟨act, pth, some ((items.get ⟨K, hK⟩).1)⟩ items
          = Except.ok (items.get ⟨K, hK⟩).2)
    ∧ (∀ t : Cid, (∀ e ∈ items, e.1 ≠ t) →
        ∀ act pth : String,
          resolveBlock ⟨act, pth, some t⟩ items
            = Except.error (ExtractError.notFound items.length)) := by
  constructor
  · intro K hK act pth
    unfold resolveBlock
    rw [find?_entry items hnd K hK]
  · intro t ht act pth
    unfold resolveBlock
    rw [List.find?_eq_none.mpr
      (fun e he => by simp [convertCid_id, ht e he])]

/-- The archive fixture for the resolver witness: two entries with
distinct identifiers, the second of which fails record decoding. -/
def items2 : List (Cid × Payload) :=
  [(cidA, Except.ok rec0), (cidB, Except.error ())]

/-- Witness for C4 on a concrete two-entry archive: resolving the
first entry's identifier returns its payload and resolving an
unmatched identifier returns `notFound 2`. -/
theorem c4_resolver_witness :
    resolveBlock ⟨"create", "app.bsky.feed.post/a", some cidA⟩
        items2 = Except.ok (Except.ok rec0)
    ∧ resolveBlock ⟨"create", "app.bsky.feed.post/a", some (⟨1, 113, [7]⟩ : Cid)⟩
        items2 = Except.error (ExtractError.notFound 2) := by
  have h := c4_resolver items2 (by decide)
  constructor
  · exact h.1 0 (by decide) "create" "app.bsky.feed.post/a"
  · exact h.2 ⟨1, 113, [7]⟩ (by decide) "create" "app.bsky.feed.post/a"

/-- The dag-cbor (codec 113) encoding of content hash [7]. -/
def cidHashA : Cid := ⟨1, 113, [7]⟩

/-- The raw (codec 85) encoding of the same content hash [7]. -/
def cidHashB : Cid := ⟨1, 85, [7]⟩

/-- C5: the claim states that both identifiers are canonicalized so
that logically-equivalent encodings of the same content hash match.
`cidHashA` and `cidHashB` carry the same content hash under different
codec tags, yet resolving `cidHashB` against an archive holding the
entry under `cidHashA` returns not-found: the entry identifier is only
converted between library representations (main.rs lines 147-151) and
the operation's target identifier is compared verbatim, so the two
never compare equal. -/
theorem c5_counterexample :
    sameContentHash cidHashA cidHashB = true
    ∧ cidHashA ≠ cidHashB
    ∧ resolveBlock ⟨"create", "app.bsky.feed.post/a", some cidHashB⟩
        [(cidHashA, Except.ok rec0)]
      = Except.error (ExtractError.notFound 1) := by
  decide

/-- C5 (amended): the archive entry's identifier is converted between
library representations preserving version, codec and hash, and the
operation's target identifier is used verbatim; the resolver matches
an entry exactly when the converted entry identifier is
representation-equal to the target, not merely an encoding of the same
content hash. -/
theorem c5_amended (entry : Cid) (p : Payload) (op : RepoOp) :
    (resolveBlock op [(entry, p)] = Except.ok p ↔
      op.cid = some (convertCid entry))
    ∧ convertCid entry = entry := by
  constructor
  · by_cases h : op.cid = some (convertCid entry)
    · simp [resolveBlock, List.find?, h]
    · have hf : (some (convertCid entry) == op.cid) = false := by
        rw [beq_eq_false_iff_ne]
        exact fun hc => h hc.symm
      simp [resolveBlock, List.find?, hf, h]
  · rfl

/-- `cMixed` with sequence number 7, so the triggering commit of a
checkpoint is identifiable from the persisted value. -/
def cMixed7 : Commit :=
  ⟨7, "r", cidC, [opBad, opGood], Except.ok [(cidA, Except.ok rec0)]⟩

/-- A 20-commit stream with non-decreasing sequence numbers (nineteen
times 1, then 7) whose 20th commit has a failing first operation and a
succeeding second one. -/
def cs20 : List Commit := List.replicate 19 cGood ++ [cMixed7]

/-- C6: the claim states a commit triggers a checkpoint only after
every one of its operations has been attempted. On `cs20` (sequence
numbers non-decreasing: nineteen 1s then 7) the 20th commit `cMixed7`
triggers the checkpoint — the cursor update [7] fires — yet only 1 of
its 2 operations was attempted: the failing first operation aborts
`handle_commit` before the second is reached, and the commit counter
and checkpoint fire regardless. -/
theorem c6_counterexample :
    cs20.map (fun c => c.seq) = List.replicate 19 1 ++ [7]
    ∧ (runLoop (cs20.map mkCommitMsg) 0).persists = [7]
    ∧ (handle_commit cMixed7).attempted = 1
    ∧ cMixed7.ops.length = 2 := by
  decide

/-- C6 (amended): for a stream of commit frames with non-decreasing
sequence numbers in the `u64`-representable range, the arguments
passed to `update_cursor` are non-decreasing across the run; a
checkpoint fires only once the commit's handling has returned, and
that handling attempts operations in order only up to and including
the first failing one (its attempted count is the length of the
failure-free prefix plus one, capped at the number of operations). -/
theorem c6_amended (cs : List Commit)
    (hmono : List.Chain' (fun a b : Commit => a.seq ≤ b.seq) cs)
    (hrange : ∀ c ∈ cs, 0 ≤ c.seq ∧ c.seq < 2 ^ 64) :
    List.Chain' (fun a b : Nat => a ≤ b)
      ((runLoop (cs.map mkCommitMsg) 0).persists)
    ∧ ∀ c : Commit,
        (handle_commit c).attempted
          = min ((c.ops.takeWhile (fun op => !opFails c op)).length + 1)
              c.ops.length := by
  constructor
  · have hpersists : (runLoop (cs.map mkCommitMsg) 0).persists
        = commitPersists cs 0 := by
      have h := runLoop_commits cs [] 0
      simp only [List.append_nil] at h
      rw [h]
      simp [runLoop]
    rw [hpersists]
    have hchain : List.Chain' (fun a b : Nat => a ≤ b)
        (cs.map (fun c => toU64 c.seq)) := by
      rw [List.chain'_map]
      exact chain'_of_mem_imp cs
        (fun a ha b hb hab =>
          toU64_mono (hrange a ha).1 (hrange a ha).2
            (hrange b hb).1 (hrange b hb).2 hab) hmono
    exact hchain.sublist (commitPersists_sublist cs 0)
  · intro c
    exact processOps_attempted c c.ops

/-- Witness for C6 (amended) on the concrete stream [cGood, cMixed]:
the cursor-update arguments are a non-decreasing list and `cMixed`'s
attempted count matches the first-failure formula. -/
theorem c6_amended_witness :
    List.Chain' (fun a b : Nat => a ≤ b)
      ((runLoop ([cGood, cMixed].map mkCommitMsg) 0).persists)
    ∧ (handle_commit cMixed).attempted
        = min ((cMixed.ops.takeWhile (fun op => !opFails cMixed op)).length + 1)
            cMixed.ops.length := by
  have h := c6_amended [cGood, cMixed]
    (by simp [List.chain'_cons, cGood, cMixed]) (by decide)
  exact ⟨h.1, h.2 cMixed⟩

/-- C7: the events delivered to the sink over a stream of commit
frames are, in order, the concatenation of the per-commit event lists
in commit arrival order, and each commit's event list is an
order-preserving selection from its operation list (a sublist of the
per-operation potential events in original operation order). -/
theorem c7_event_order (cs : List Commit) (k : Nat) :
    (runLoop (cs.map mkCommitMsg) k).events = (cs.map commitEvents).flatten
    ∧ ∀ c : Commit,
        (commitEvents c).Sublist (c.ops.filterMap (potentialEvent c)) := by
  constructor
  · have h := runLoop_commits cs [] k
    simp only [List.append_nil] at h
    rw [h]
    simp [runLoop]
  · exact commitEvents_sublist

/-- C10: `FirehoseConsumer::update_cursor` returns `Ok(())` for every
sequence number and leaves the consumer state unchanged (it is a
no-op that never durably stores the cursor), so on a stream of valid
commit frames the `?` after `update_cursor` in `run` never fires and
the run ends with `Ok(())`. -/
theorem c10_update_cursor_noop (s : FirehoseConsumerState) (n : Nat) :
    update_cursor s n = (Except.ok (), s)
    ∧ ∀ (cs : List Commit) (k : Nat),
        (runLoop (cs.map mkCommitMsg) k).ok = true := by
  constructor
  · rfl
  · intro cs k
    have h := runLoop_commits cs [] k
    simp only [List.append_nil] at h
    rw [h]
    simp [runLoop]

end BskyStreamer
